import Mathlib

/-!
Shallow embedding of the unionix discriminated-union helper library
(the TypeScript file embedded here as the create/UnionHelpers module).
A tagged value is a record with a string discriminator field `type` plus a
variant payload; handler maps are association lists keyed by discriminator,
mirroring JavaScript object property lookup.  Operations that can throw are
embedded in `Except String`: a JavaScript `throw new Error(msg)` becomes
`Except.error msg` and a normal return becomes `Except.ok`.  Operations
whose bodies contain no throw statement are still given `Except` result
types so that their totality is a provable statement rather than a
modelling assumption.
-/

namespace Unionix

/-- A tagged value: the required string discriminator field `type` plus the
variant payload.  Embeds the TypeScript `DiscriminatedUnion` base shape,
with the variant-specific fields abstracted into one payload component. -/
structure Value (α : Type) where
  type : String
  payload : α
deriving DecidableEq, Repr

/-- A handler map keyed by discriminator value, as passed to `when`,
`match`, `fold`, `map` and `transform`.  JavaScript object property
lookup `handlers[key]` is modelled by association-list lookup. -/
abbrev HandlerMap (α ρ : Type) := List (String × (Value α → ρ))

/-- A predicate map keyed by discriminator value, as passed to
`filterBy`. -/
abbrev PredMap (α : Type) := List (String × (Value α → Bool))

/-- The `types` argument of `filter`: one discriminator value or an
array of them (the code distinguishes the two with `Array.isArray`). -/
inductive Selector where
  | one : String → Selector
  | many : List String → Selector

/-- The JavaScript expression `Array.isArray(types) ? types : [types]`
used to build the `allowedTypes` set inside `createFilterFunction`. -/
def Selector.toList : Selector → List String
  | one t => [t]
  | many ts => ts

/-- Embeds `createWhenFunction`: look the handler up by the discriminator
of the value; throw `No handler found for type: ...` when it is absent,
otherwise return the handler applied to the value. -/
def when (v : Value α) (handlers : HandlerMap α ρ) : Except String ρ :=
  match handlers.lookup v.type with
  | some h => Except.ok (h v)
  | none => Except.error ("No handler found for type: " ++ v.type)

/-- Embeds `createMatchFunction`; its body is identical to
`createWhenFunction` (named `matchFn` because `match` is reserved). -/
def matchFn (v : Value α) (handlers : HandlerMap α ρ) : Except String ρ :=
  match handlers.lookup v.type with
  | some h => Except.ok (h v)
  | none => Except.error ("No handler found for type: " ++ v.type)

/-- Embeds `createMapFunction`: apply the matching handler when present,
otherwise return the value unchanged.  The `MapHandlers` type constrains
each handler to take and return the same variant; that typing constraint
is stated as a hypothesis on the theorems that rely on it. -/
def map (v : Value α) (handlers : HandlerMap α (Value α)) :
    Except String (Value α) :=
  match handlers.lookup v.type with
  | some h => Except.ok (h v)
  | none => Except.ok v

/-- Embeds `createTransformFunction`: same body as `map`, but the
`TransformHandlers` type lets a handler return any variant. -/
def transform (v : Value α) (handlers : HandlerMap α (Value α)) :
    Except String (Value α) :=
  match handlers.lookup v.type with
  | some h => Except.ok (h v)
  | none => Except.ok v

/-- Embeds `createFoldFunction`: apply the matching handler when present,
otherwise apply the default handler to the original value. -/
def fold (v : Value α) (handlers : HandlerMap α ρ)
    (defaultHandler : Value α → ρ) : Except String ρ :=
  match handlers.lookup v.type with
  | some h => Except.ok (h v)
  | none => Except.ok (defaultHandler v)

/-- Embeds `createFilterFunction`: keep the values whose discriminator is
in the allowed set built from the `types` argument. -/
def filter (values : List (Value α)) (types : Selector) :
    Except String (List (Value α)) :=
  let allowedTypes := types.toList
  Except.ok (values.filter fun v => allowedTypes.contains v.type)

/-- Embeds `createFilterByFunction`: keep a value when its discriminator is
among the keys of the predicate map and the predicate found there accepts
it; the `predicate ? predicate(value) : false` fallback becomes the
`none` branch. -/
def filterBy (values : List (Value α)) (predicates : PredMap α) :
    Except String (List (Value α)) :=
  let allowedTypes := predicates.map Prod.fst
  Except.ok (values.filter fun v =>
    if allowedTypes.contains v.type then
      match predicates.lookup v.type with
      | some p => p v
      | none => false
    else false)

/-- One step of the loop body of `createPartitionFunction`: append the
value to the group of its discriminator, creating the group at the end of
the accumulator when the key is seen for the first time (JavaScript object
insertion order). -/
def partInsert (acc : List (String × List (Value α))) (v : Value α) :
    List (String × List (Value α)) :=
  match acc with
  | [] => [(v.type, [v])]
  | (k, g) :: rest =>
      if k = v.type then (k, g ++ [v]) :: rest
      else (k, g) :: partInsert rest v

/-- Embeds `createPartitionFunction`: a single linear pass pushing each
value onto the group of its discriminator. -/
def partition (values : List (Value α)) :
    Except String (List (String × List (Value α))) :=
  Except.ok (values.foldl partInsert [])

/-- Embeds `createGetTypeFunction`: return the discriminator field. -/
def getType (v : Value α) : Except String String :=
  Except.ok v.type

/-- A JavaScript object property value: either a string (the
discriminator lives here) or an opaque payload value. -/
inductive JVal (ν : Type) where
  | str : String → JVal ν
  | raw : ν → JVal ν
deriving DecidableEq, Repr

/-- A JavaScript object as an insertion-ordered association list of
properties; well-formed objects have distinct keys. -/
abbrev Obj (ν : Type) := List (String × JVal ν)

/-- Building `{ ...data, type }`: copy the properties of `data` in order,
then define the property `type` — when `data` already has that key its
value is replaced in place, otherwise the key is appended. -/
def objSet : Obj ν → String → JVal ν → Obj ν
  | [], k, x => [(k, x)]
  | (k0, y) :: rest, k, x =>
      if k0 = k then (k0, x) :: rest
      else (k0, y) :: objSet rest k x

/-- Embeds `createConstructorFunction` at the object level:
`(type) => (data) => ({ ...data, type })`. -/
def constructor (t : String) (data : Obj ν) : Obj ν :=
  objSet data "type" (JVal.str t)

/-- The `constructor` operation wrapped in the error monad used by the
other operations; its body contains no throw statement. -/
def constructorE (t : String) (data : Obj ν) : Except String (Obj ν) :=
  Except.ok (constructor t data)

/-- Reading `value.type` from an object: `none` models `undefined`. -/
def typeOf (o : Obj ν) : Option (JVal ν) :=
  o.lookup "type"

/-- Character-level model of the JavaScript expression
`str.charAt(0).toLowerCase() + str.slice(1)` (ASCII case mapping, which
agrees with JavaScript on the ASCII range). -/
def lowerFirst : List Char → List Char
  | [] => []
  | c :: cs => Char.toLower c :: cs

/-- Embeds the `uncapitalize` helper of the source. -/
def uncapitalize (s : String) : String :=
  String.mk (lowerFirst s.data)

/-- First character uppercased. -/
def upperFirst : List Char → List Char
  | [] => []
  | c :: cs => Char.toUpper c :: cs

/-- Model of the TypeScript intrinsic `Capitalize` string type as it acts
on runtime strings: first character uppercased (ASCII).  Used to form the
derived type-guard name `is` followed by the capitalized discriminator,
from the `TypeGuards` mapped type of the source. -/
def capitalize (s : String) : String :=
  String.mk (upperFirst s.data)

/-- The derived name of the type guard for discriminator `t`, per the
`TypeGuards` mapped type of the source. -/
def derivedGuardName (t : String) : String :=
  "is" ++ capitalize t

/-- The type-guard function the `create` Proxy synthesizes for a property
name `prop` beginning with `is`: `typeName = prop.slice(2)`, and the
guard tests whether the discriminator of the value equals
`uncapitalize(typeName)` or `typeName`.  The guard reads only the
discriminator, so it is modelled as a function of that string. -/
def typeGuard (prop : String) (vtype : String) : Bool :=
  let typeName := String.mk (prop.data.drop 2)
  vtype == uncapitalize typeName || vtype == typeName

/-- The synthesized guard applied to a whole object: JavaScript
`value.type` reads the `type` property, and strict equality with a string
is false when the property is absent or not a string. -/
def objGuard (prop : String) (o : Obj ν) : Bool :=
  match typeOf o with
  | some (JVal.str s) => typeGuard prop s
  | _ => false

/-! ### General helper lemmas -/

theorem mk_data (s : String) : String.mk s.data = s := by
  cases s; rfl

theorem alist_lookup_eq_none {β : Type} (l : List (String × β)) (a : String) :
    l.lookup a = none ↔ a ∉ l.map Prod.fst := by
  induction l with
  | nil => simp [List.lookup]
  | cons kb rest ih =>
    obtain ⟨k, b⟩ := kb
    by_cases h : a = k
    · subst h; simp [List.lookup_cons]
    · simp [List.lookup_cons, beq_eq_false_iff_ne.mpr h, ih, h]

theorem alist_lookup_isSome {β : Type} (l : List (String × β)) (a : String) :
    (∃ b, l.lookup a = some b) ↔ a ∈ l.map Prod.fst := by
  rw [← not_iff_not, ← alist_lookup_eq_none]
  cases h : l.lookup a <;> simp [h]

theorem contains_eq_decide_mem (l : List String) (a : String) :
    l.contains a = decide (a ∈ l) := by
  by_cases h : a ∈ l
  · simp [h, List.contains, List.elem_iff]
  · have he : List.elem a l = false := by
      rw [← Bool.not_eq_true]
      intro hc
      exact h (List.elem_iff.mp hc)
    simp [List.contains, he, h]

theorem char_toNat_ofNat {m : Nat} (h : Nat.isValidChar m) :
    (Char.ofNat m).toNat = m := by
  rw [Char.ofNat, dif_pos h]; rfl

theorem toLower_toUpper_eq_toLower (c : Char) :
    Char.toLower (Char.toUpper c) = Char.toLower c := by
  by_cases h : c.toNat ≥ 97 ∧ c.toNat ≤ 122
  · have hv : Nat.isValidChar (c.toNat - 32) := Or.inl (by omega)
    have hup : Char.toUpper c = Char.ofNat (c.toNat - 32) := by
      rw [Char.toUpper, if_pos h]
    have ht : (Char.toUpper c).toNat = c.toNat - 32 := by
      rw [hup]; exact char_toNat_ofNat hv
    have hlo : Char.toLower c = c := by
      rw [Char.toLower, if_neg (by omega)]
    rw [hlo, Char.toLower, if_pos (by omega)]
    have h32 : c.toNat - 32 + 32 = c.toNat := by omega
    rw [ht, h32, Char.ofNat_toNat]
  · have hup : Char.toUpper c = c := by
      rw [Char.toUpper, if_neg h]
    rw [hup]

theorem toLower_toUpper_eq_or (c : Char) :
    Char.toLower (Char.toUpper c) = c ∨ Char.toUpper c = c := by
  by_cases h : c.toNat ≥ 97 ∧ c.toNat ≤ 122
  · left
    rw [toLower_toUpper_eq_toLower, Char.toLower, if_neg (by omega)]
  · right
    rw [Char.toUpper, if_neg h]

/-! ### Lemmas about object construction -/

theorem objSet_lookup_self (o : Obj ν) (k : String) (x : JVal ν) :
    (objSet o k x).lookup k = some x := by
  induction o with
  | nil => simp [objSet, List.lookup_cons]
  | cons p rest ih =>
    obtain ⟨k0, y⟩ := p
    by_cases h : k0 = k
    · subst h; simp [objSet, List.lookup_cons]
    · simp only [objSet, if_neg h]
      simp [List.lookup_cons, beq_eq_false_iff_ne.mpr (Ne.symm h), ih]

theorem objSet_lookup_ne (o : Obj ν) (k a : String) (x : JVal ν) (h : a ≠ k) :
    (objSet o k x).lookup a = o.lookup a := by
  induction o with
  | nil => simp [objSet, List.lookup, List.lookup_cons, beq_eq_false_iff_ne.mpr h]
  | cons p rest ih =>
    obtain ⟨k0, y⟩ := p
    by_cases hk : k0 = k
    · subst hk
      simp [objSet, List.lookup_cons, beq_eq_false_iff_ne.mpr h]
    · simp only [objSet, if_neg hk]
      by_cases ha : a = k0
      · subst ha; simp [List.lookup_cons]
      · simp [List.lookup_cons, beq_eq_false_iff_ne.mpr ha, ih]

theorem objSet_append_of_not_mem (o : Obj ν) (k : String) (x : JVal ν)
    (h : k ∉ o.map Prod.fst) : objSet o k x = o ++ [(k, x)] := by
  induction o with
  | nil => rfl
  | cons p rest ih =>
    obtain ⟨k0, y⟩ := p
    simp only [List.map_cons, List.mem_cons] at h
    push_neg at h
    simp [objSet, Ne.symm h.1, ih h.2]

theorem typeOf_constructor (t : String) (p : Obj ν) :
    typeOf (constructor t p) = some (JVal.str t) := by
  rw [typeOf, constructor, objSet_lookup_self]

/-! ### Lemmas about the synthesized type guards -/

theorem uncapitalize_capitalize (s : String) :
    uncapitalize (capitalize s) = uncapitalize s := by
  obtain ⟨data⟩ := s
  cases data with
  | nil => rfl
  | cons c cs =>
    simp [capitalize, uncapitalize, upperFirst, lowerFirst,
      toLower_toUpper_eq_toLower]

theorem uncapitalize_capitalize_or (s : String) :
    uncapitalize (capitalize s) = s ∨ capitalize s = s := by
  obtain ⟨data⟩ := s
  cases data with
  | nil => right; rfl
  | cons c cs =>
    rcases toLower_toUpper_eq_or c with h | h
    · left; simp [capitalize, uncapitalize, upperFirst, lowerFirst, h]
    · right; simp [capitalize, upperFirst, h]

theorem typeGuard_is (nm vt : String) :
    typeGuard ("is" ++ nm) vt = true ↔ (vt = uncapitalize nm ∨ vt = nm) := by
  have h1 : ("is" : String).data = ['i', 's'] := rfl
  have hdrop : ("is" ++ nm).data.drop 2 = nm.data := by
    rw [String.data_append, h1]
    rfl
  simp [typeGuard, hdrop, mk_data, Bool.or_eq_true, beq_iff_eq]

theorem typeGuard_derived_self (t : String) :
    typeGuard (derivedGuardName t) t = true := by
  rw [derivedGuardName, typeGuard_is, uncapitalize_capitalize]
  rcases uncapitalize_capitalize_or t with h | h
  · rw [uncapitalize_capitalize] at h
    left; exact h.symm
  · right; exact h.symm

/-! ### Lemmas about partition -/

theorem partInsert_lookup_self (acc : List (String × List (Value α)))
    (v : Value α) :
    (partInsert acc v).lookup v.type =
      some (((acc.lookup v.type).getD []) ++ [v]) := by
  induction acc with
  | nil => simp [partInsert, List.lookup_cons, List.lookup]
  | cons p rest ih =>
    obtain ⟨k, g⟩ := p
    by_cases h : k = v.type
    · subst h
      simp [partInsert, List.lookup_cons]
    · simp only [partInsert, if_neg h]
      simp [List.lookup_cons, beq_eq_false_iff_ne.mpr (Ne.symm h), ih]

theorem partInsert_lookup_ne (acc : List (String × List (Value α)))
    (v : Value α) (t : String) (h : t ≠ v.type) :
    (partInsert acc v).lookup t = acc.lookup t := by
  induction acc with
  | nil => simp [partInsert, List.lookup_cons, List.lookup,
      beq_eq_false_iff_ne.mpr h]
  | cons p rest ih =>
    obtain ⟨k, g⟩ := p
    by_cases hk : k = v.type
    · subst hk
      simp [partInsert, List.lookup_cons, beq_eq_false_iff_ne.mpr h]
    · simp only [partInsert, if_neg hk]
      by_cases ht : t = k
      · subst ht; simp [List.lookup_cons]
      · simp [List.lookup_cons, beq_eq_false_iff_ne.mpr ht, ih]

theorem partition_lookup (values : List (Value α)) (t : String) :
    (values.foldl partInsert []).lookup t =
      if (values.filter fun w => w.type == t).isEmpty then none
      else some (values.filter fun w => w.type == t) := by
  induction values using List.reverseRecOn with
  | nil => simp [List.lookup]
  | append_singleton vs v ih =>
    rw [List.foldl_append, List.foldl_cons, List.foldl_nil, List.filter_append]
    by_cases h : t = v.type
    · subst h
      rw [partInsert_lookup_self, ih]
      have hv : (List.filter (fun w => w.type == v.type) [v]) = [v] := by
        simp [List.filter]
      rw [hv]
      have hne : ((vs.filter fun w => w.type == v.type) ++ [v]).isEmpty
          = false := by
        simp [List.isEmpty_iff]
      rw [hne]
      by_cases he : (vs.filter fun w => w.type == v.type).isEmpty
      · rw [if_pos he]
        simp [List.isEmpty_iff.mp he]
      · simp only [he, Bool.false_eq_true, if_false]
        simp
    · rw [partInsert_lookup_ne _ _ _ h, ih]
      have hf : (List.filter (fun w => w.type == t) [v]) = [] := by
        simp [List.filter, beq_eq_false_iff_ne.mpr (Ne.symm h)]
      rw [hf, List.append_nil]

theorem partInsert_groups_ne_nil (acc : List (String × List (Value α)))
    (v : Value α) (h : ∀ p ∈ acc, p.2 ≠ []) :
    ∀ p ∈ partInsert acc v, p.2 ≠ [] := by
  induction acc with
  | nil =>
    intro p hp
    simp only [partInsert, List.mem_singleton] at hp
    subst hp
    simp
  | cons q rest ih =>
    obtain ⟨k, g⟩ := q
    by_cases hk : k = v.type
    · subst hk
      intro p hp
      have hstep : partInsert ((v.type, g) :: rest) v
          = (v.type, g ++ [v]) :: rest := by
        simp [partInsert]
      rw [hstep, List.mem_cons] at hp
      rcases hp with hp | hp
      · subst hp; simp
      · exact h p (List.mem_cons_of_mem _ hp)
    · intro p hp
      have hstep : partInsert ((k, g) :: rest) v
          = (k, g) :: partInsert rest v := by
        simp [partInsert, hk]
      rw [hstep, List.mem_cons] at hp
      rcases hp with hp | hp
      · subst hp
        exact h (k, g) (List.mem_cons_self _ _)
      · exact ih (fun q hq => h q (List.mem_cons_of_mem _ hq)) p hp

theorem partition_groups_ne_nil (values : List (Value α)) :
    ∀ p ∈ values.foldl partInsert [], p.2 ≠ [] := by
  suffices hgen : ∀ acc : List (String × List (Value α)),
      (∀ p ∈ acc, p.2 ≠ []) →
      ∀ p ∈ values.foldl partInsert acc, p.2 ≠ [] by
    exact hgen [] (by simp)
  induction values with
  | nil => intro acc hacc; simpa using hacc
  | cons v vs ih =>
    intro acc hacc
    rw [List.foldl_cons]
    exact ih _ (partInsert_groups_ne_nil acc v hacc)

theorem partInsert_flatten_perm (acc : List (String × List (Value α)))
    (v : Value α) :
    ((partInsert acc v).map Prod.snd).flatten.Perm
      ((acc.map Prod.snd).flatten ++ [v]) := by
  induction acc with
  | nil => simp [partInsert]
  | cons q rest ih =>
    obtain ⟨k, g⟩ := q
    by_cases hk : k = v.type
    · subst hk
      have hstep : partInsert ((v.type, g) :: rest) v
          = (v.type, g ++ [v]) :: rest := by
        simp [partInsert]
      rw [hstep]
      simp only [List.map_cons, List.flatten_cons]
      rw [List.append_assoc, List.append_assoc]
      exact List.Perm.append_left g List.perm_append_comm
    · have hstep : partInsert ((k, g) :: rest) v
          = (k, g) :: partInsert rest v := by
        simp [partInsert, hk]
      rw [hstep]
      simp only [List.map_cons, List.flatten_cons]
      rw [List.append_assoc]
      exact List.Perm.append_left g ih

theorem partition_flatten_perm (values : List (Value α)) :
    ((values.foldl partInsert []).map Prod.snd).flatten.Perm values := by
  induction values using List.reverseRecOn with
  | nil => simp
  | append_singleton vs v ih =>
    rw [List.foldl_append, List.foldl_cons, List.foldl_nil]
    exact (partInsert_flatten_perm _ v).trans (ih.append_right [v])

/-! ### Claim theorems -/

/-- Claim C1: for every tagged value v and every handler map H that
contains an entry for the discriminator of v, `when` returns exactly the
result of applying that entry to v. -/
theorem C1_when_exact (v : Value α) (H : HandlerMap α ρ) (h : Value α → ρ)
    (hH : H.lookup v.type = some h) : when v H = Except.ok (h v) := by
  rw [when, hH]

theorem C1_when_exact_witness :
    when (Value.mk "loading" (50 : Nat))
        [("loading", fun w => w.payload + 1)]
      = Except.ok 51 :=
  C1_when_exact (Value.mk "loading" (50 : Nat))
    [("loading", fun w => w.payload + 1)] (fun w => w.payload + 1) rfl

/-- Claim C2: the exhaustive dispatch operations `when` and `match` fail
exactly when the handler map has no entry for the discriminator of the
value, and the error names that discriminator; every other operation of
the helper set returns an `ok` result on every input. -/
theorem C2_error_discipline (v : Value α) (H : HandlerMap α ρ)
    (H2 : HandlerMap α σ) (Hm Ht : HandlerMap α (Value α))
    (D : Value α → ρ) (values : List (Value α)) (sel : Selector)
    (P : PredMap α) (t : String) (o : Obj ν) :
    ((when v H).isOk = false ↔ H.lookup v.type = none) ∧
    (H.lookup v.type = none →
      when v H = Except.error ("No handler found for type: " ++ v.type)) ∧
    ((matchFn v H2).isOk = false ↔ H2.lookup v.type = none) ∧
    (H2.lookup v.type = none →
      matchFn v H2 = Except.error ("No handler found for type: " ++ v.type)) ∧
    (fold v H D).isOk = true ∧
    (map v Hm).isOk = true ∧
    (transform v Ht).isOk = true ∧
    (filter values sel).isOk = true ∧
    (filterBy values P).isOk = true ∧
    (partition values).isOk = true ∧
    (getType v).isOk = true ∧
    (constructorE t o).isOk = true := by
  refine ⟨?_, ?_, ?_, ?_, ?_, ?_, ?_, rfl, rfl, rfl, rfl, rfl⟩
  · rw [when]; cases H.lookup v.type <;> simp [Except.isOk, Except.toBool]
  · intro h; rw [when, h]
  · rw [matchFn]; cases H2.lookup v.type <;> simp [Except.isOk, Except.toBool]
  · intro h; rw [matchFn, h]
  · rw [fold]; cases H.lookup v.type <;> simp [Except.isOk, Except.toBool]
  · rw [map]; cases Hm.lookup v.type <;> simp [Except.isOk, Except.toBool]
  · rw [transform]; cases Ht.lookup v.type <;> simp [Except.isOk, Except.toBool]

theorem C2_error_discipline_witness :
    when (Value.mk "error" (0 : Nat)) ([] : HandlerMap Nat Nat)
      = Except.error "No handler found for type: error" := by
  have h := C2_error_discipline (Value.mk "error" (0 : Nat))
    ([] : HandlerMap Nat Nat) ([] : HandlerMap Nat Nat) [] []
    (fun _ => 0) [] (Selector.one "a") [] "t" ([] : Obj Unit)
  exact h.2.1 rfl

/-- Claim C4: for every tagged value v and every well-typed map handler
map H (each handler takes and returns a value of the same variant, the
constraint imposed by the `MapHandlers` type), the result of `map` has
the same discriminator as v. -/
theorem C4_map_preserves_type (v : Value α) (H : HandlerMap α (Value α))
    (hH : ∀ k f, H.lookup k = some f → ∀ w : Value α, w.type = k →
      (f w).type = k) :
    ∃ w, map v H = Except.ok w ∧ getType w = getType v := by
  cases hl : H.lookup v.type with
  | none => exact ⟨v, by rw [map, hl], rfl⟩
  | some f =>
    refine ⟨f v, by rw [map, hl], ?_⟩
    rw [getType, getType, hH v.type f hl v rfl]

theorem C4_map_preserves_type_witness :
    ∃ w, map (Value.mk "loading" (50 : Nat))
        [("loading", fun u => Value.mk u.type (u.payload + 10))]
      = Except.ok w ∧ getType w = getType (Value.mk "loading" (50 : Nat)) := by
  apply C4_map_preserves_type
  intro k f hf w hw
  by_cases hk : k = "loading"
  · subst hk
    have hf2 : f = fun u : Value Nat => Value.mk u.type (u.payload + 10) := by
      simpa [List.lookup] using hf.symm
    subst hf2
    simpa using hw
  · rw [show (List.lookup k
      [("loading", fun u : Value Nat => Value.mk u.type (u.payload + 10))])
        = none by simp [List.lookup, beq_eq_false_iff_ne.mpr hk]] at hf
    cases hf

/-- Claim C5: `fold` returns the matching handler applied to the value
when the handler map has an entry for the discriminator of the value, and
the default handler applied to the original value otherwise; it never
fails due to a missing entry. -/
theorem C5_fold_total (v : Value α) (H : HandlerMap α ρ)
    (D : Value α → ρ) :
    (∀ h, H.lookup v.type = some h → fold v H D = Except.ok (h v)) ∧
    (H.lookup v.type = none → fold v H D = Except.ok (D v)) := by
  constructor
  · intro h hh
    rw [fold, hh]
  · intro hh
    rw [fold, hh]

theorem C5_fold_total_witness :
    fold (Value.mk "error" "x") [("success", fun w => w.payload)]
        (fun _ => "fallback")
      = Except.ok "fallback" := by
  have h := (C5_fold_total (Value.mk "error" "x")
    [("success", fun w => w.payload)] (fun _ => "fallback")).2
  exact h (by simp [List.lookup])

/-- Claim C6: `filter` returns exactly the order-preserving subsequence
of the input whose discriminator is in the selector, for every input
including the empty one; a selector matching no element yields the empty
list. -/
theorem C6_filter_subsequence (values : List (Value α)) (sel : Selector) :
    ∃ r, filter values sel = Except.ok r ∧
      List.Sublist r values ∧
      r = values.filter (fun v => decide (v.type ∈ sel.toList)) ∧
      ((∀ v ∈ values, v.type ∉ sel.toList) → r = []) := by
  refine ⟨values.filter (fun v => sel.toList.contains v.type), rfl,
    List.filter_sublist _, ?_, ?_⟩
  · have hc : (fun v : Value α => sel.toList.contains v.type)
        = fun v => decide (v.type ∈ sel.toList) := by
      funext v; exact contains_eq_decide_mem _ _
    rw [hc]
  · intro hnone
    rw [List.filter_eq_nil_iff]
    intro a ha
    simp [contains_eq_decide_mem]
    exact hnone a ha

theorem C6_filter_subsequence_witness :
    ∃ r, filter [Value.mk "a" (0 : Nat)] (Selector.one "b") = Except.ok r ∧
      r = [] := by
  obtain ⟨r, h1, _, _, h4⟩ :=
    C6_filter_subsequence [Value.mk "a" (0 : Nat)] (Selector.one "b")
  exact ⟨r, h1, h4 (by decide)⟩

/-- Claim C7: `filterBy` returns exactly the order-preserving subsequence
of values whose discriminator is a key of the predicate map and whose
predicate accepts the value; values with a discriminator absent from the
map are excluded unconditionally, so an empty predicate map yields the
empty list. -/
theorem C7_filterBy_keys (values : List (Value α)) (P : PredMap α) :
    (∃ r, filterBy values P = Except.ok r ∧
      List.Sublist r values ∧
      r = values.filter (fun v => decide (v.type ∈ P.map Prod.fst) &&
            ((P.lookup v.type).getD (fun _ => false)) v)) ∧
    filterBy values ([] : PredMap α) = Except.ok [] := by
  constructor
  · refine ⟨_, rfl, List.filter_sublist _, ?_⟩
    apply List.filter_congr
    intro v _
    by_cases hmem : v.type ∈ P.map Prod.fst
    · obtain ⟨p, hp⟩ := (alist_lookup_isSome P v.type).mpr hmem
      rw [contains_eq_decide_mem, hp]
      simp [hmem]
    · have hnone : P.lookup v.type = none :=
        (alist_lookup_eq_none P v.type).mpr hmem
      rw [contains_eq_decide_mem, hnone]
      simp [hmem]
  · have hb : ∀ v : Value α,
        (if (([] : PredMap α).map Prod.fst).contains v.type then
          match ([] : PredMap α).lookup v.type with
          | some p => p v
          | none => false
        else false) = false := by
      intro v; rfl
    simp only [filterBy]
    rw [List.filter_congr (fun v _ => hb v)]
    simp

theorem C7_filterBy_keys_witness :
    filterBy [Value.mk "a" (0 : Nat)] ([] : PredMap Nat) = Except.ok [] :=
  (C7_filterBy_keys [Value.mk "a" (0 : Nat)] ([] : PredMap Nat)).2

/-- Claim C8: `partition` maps exactly the discriminators observed in the
input (absent discriminators are absent keys, and no group is empty) to
the order-preserving subsequence sharing that discriminator; the group
lengths sum to the input length and the concatenation of the groups in
first-seen key order is a permutation of the input. -/
theorem C8_partition_groups (values : List (Value α)) :
    ∃ m, partition values = Except.ok m ∧
      (∀ t, t ∈ m.map Prod.fst ↔ ∃ v ∈ values, v.type = t) ∧
      (∀ t, m.lookup t =
        if (values.filter fun w => w.type == t).isEmpty then none
        else some (values.filter fun w => w.type == t)) ∧
      (∀ p ∈ m, p.2 ≠ []) ∧
      (m.map fun p => p.2.length).sum = values.length ∧
      (m.map Prod.snd).flatten.Perm values := by
  refine ⟨values.foldl partInsert [], rfl, ?_, partition_lookup values,
    partition_groups_ne_nil values, ?_, partition_flatten_perm values⟩
  · intro t
    have h1 : (values.foldl partInsert []).lookup t = none ↔
        (values.filter fun w => w.type == t) = [] := by
      rw [partition_lookup]
      by_cases he : (values.filter fun w => w.type == t).isEmpty
      · simp [he, List.isEmpty_iff.mp he]
      · simp only [he, Bool.false_eq_true, if_false]
        constructor
        · intro hc; cases hc
        · intro hc
          exact absurd (by simp [hc]) he
    constructor
    · intro hmem
      by_contra hno
      push_neg at hno
      have hnil : (values.filter fun w => w.type == t) = [] := by
        rw [List.filter_eq_nil_iff]
        intro a ha
        simp [beq_iff_eq]
        exact hno a ha
      have h2 := h1.mpr hnil
      rw [alist_lookup_eq_none] at h2
      exact h2 hmem
    · rintro ⟨v, hv, ht⟩
      by_contra hmem
      rw [← alist_lookup_eq_none] at hmem
      have h2 := h1.mp hmem
      rw [List.filter_eq_nil_iff] at h2
      exact h2 v hv (by simp [ht])
  · have hp := partition_flatten_perm values
    have hlen := hp.length_eq
    rw [List.length_flatten] at hlen
    rw [← hlen, List.map_map]
    rfl

theorem C8_partition_groups_witness :
    ∃ m, partition [Value.mk "a" (1 : Nat), Value.mk "b" 2, Value.mk "a" 3]
        = Except.ok m ∧
      m.lookup "a" = some [Value.mk "a" 1, Value.mk "a" 3] ∧
      m.lookup "b" = some [Value.mk "b" 2] ∧
      m.lookup "c" = none := by
  obtain ⟨m, h1, _, h3, _, _, _⟩ :=
    C8_partition_groups [Value.mk "a" (1 : Nat), Value.mk "b" 2,
      Value.mk "a" 3]
  refine ⟨m, h1, ?_, ?_, ?_⟩
  · rw [h3 "a"]; decide
  · rw [h3 "b"]; decide
  · rw [h3 "c"]; decide

/-- Claim C3, counterexample: the discriminators "foo" and "Foo" are
distinct, yet the test derived for the variant "Foo" returns true, not
false, on a value built by the constructor for "foo", because the guard
tolerantly matches the uncapitalized form of its target. -/
theorem C3_counterexample :
    "foo" ≠ "Foo" ∧
    objGuard (derivedGuardName "Foo") (constructor "foo" ([] : Obj Unit))
      = true := by
  constructor
  · decide
  · rfl

/-- Claim C3 (amended): the test derived for discriminator t accepts
every value built by the constructor for t; the test derived for another
discriminator u rejects such a value provided t is neither u capitalized
nor u uncapitalized (that is, unless the two discriminators differ only
in the case of their first letter); and a test for the derived name
`is` ++ Name accepts a discriminator exactly when it equals Name verbatim
or Name with its first letter lowercased. -/
theorem C3_typeGuard_amended (t u : String) (p : Obj ν) :
    objGuard (derivedGuardName t) (constructor t p) = true ∧
    (t ≠ capitalize u → t ≠ uncapitalize u →
      objGuard (derivedGuardName u) (constructor t p) = false) ∧
    (∀ nm vt : String,
      typeGuard ("is" ++ nm) vt = true ↔
        (vt = uncapitalize nm ∨ vt = nm)) := by
  refine ⟨?_, ?_, typeGuard_is⟩
  · unfold objGuard
    rw [typeOf_constructor]
    exact typeGuard_derived_self t
  · intro h1 h2
    unfold objGuard
    rw [typeOf_constructor]
    show typeGuard (derivedGuardName u) t = false
    rw [derivedGuardName, ← Bool.not_eq_true, typeGuard_is,
      uncapitalize_capitalize]
    push_neg
    exact ⟨h2, h1⟩

theorem C3_typeGuard_amended_witness :
    objGuard (derivedGuardName "loading")
        (constructor "loading" [("progress", JVal.raw (50 : Nat))])
      = true ∧
    objGuard (derivedGuardName "success")
        (constructor "loading" [("progress", JVal.raw (50 : Nat))])
      = false := by
  have h := C3_typeGuard_amended "loading" "success"
    [("progress", JVal.raw (50 : Nat))]
  exact ⟨h.1, h.2.1 (by decide) (by decide)⟩

/-- Claim C9: for every discriminator t and payload record p without a
`type` field, the constructed value has discriminator t and carries
exactly the fields of p, unchanged. -/
theorem C9_constructor_fields (t : String) (p : Obj ν)
    (hp : "type" ∉ p.map Prod.fst) :
    typeOf (constructor t p) = some (JVal.str t) ∧
    (∀ k, k ≠ "type" → (constructor t p).lookup k = p.lookup k) ∧
    (constructor t p).map Prod.fst = p.map Prod.fst ++ ["type"] := by
  refine ⟨typeOf_constructor t p, ?_, ?_⟩
  · intro k hk
    exact objSet_lookup_ne p "type" k _ hk
  · rw [constructor, objSet_append_of_not_mem p "type" _ hp]
    simp

theorem C9_constructor_fields_witness :
    typeOf (constructor "success" [("data", JVal.raw (7 : Nat))])
        = some (JVal.str "success") ∧
    (constructor "success" [("data", JVal.raw (7 : Nat))]).lookup "data"
        = some (JVal.raw 7) := by
  have h := C9_constructor_fields "success" [("data", JVal.raw (7 : Nat))]
    (by decide)
  refine ⟨h.1, ?_⟩
  rw [h.2.1 "data" (by decide)]
  rfl

/-- Claim C10: for every requested discriminator t and payload record p,
even one that itself contains a `type` field with a different value, the
constructed value has discriminator exactly t: the discriminator is
merged after the payload fields and overrides any caller-supplied
`type` property. -/
theorem C10_constructor_overrides (t : String) (p : Obj ν) :
    typeOf (constructor t p) = some (JVal.str t) :=
  typeOf_constructor t p

end Unionix
